import Mathlib

/-!
Verification of the call-signature subsystem of src/call/signature.c.

The shallow embedding translates the C source into pure Lean definitions:

* The C INTVAL is modelled as Int and the C FLOATVAL as Rat (the coercion
  structure of the code is exact over the rationals; IEEE rounding is out of
  scope).
* STRING pointers are modelled as Option String (none = NULL / STRINGNULL);
  Parrot strings compare by content, which is also the hash-key equality.
* PMC pointers are modelled as Option PMCData (none = PMCNULL), where PMCData
  carries the on-free-list GC flag and the values returned by the polymorphic
  get_integer / get_number / get_string vtable entries.
* The positional array is a List Pcc_cell of length allocated_positionals,
  with slots in [num_positionals, allocated_positionals) holding an
  unspecified garbage cell that the API never reads.
* The named-parameter Hash is an association list in bucket order; Parrot's
  hash keeps at most one bucket per key.
* Allocator traffic (fixed-size pool vs. memory chunk) is recorded as a list
  of AllocEvent values, sized in Pcc_cell slots.
-/

/-- A STRING pointer: none is NULL (STRINGNULL); a live Parrot string is
identified by its character content. -/
abbrev STRING := Option String

/-- The data of a live PMC object: its GC free-list flag and the results of
its polymorphic get_integer / get_number / get_string vtable entries. -/
structure PMCData where
  onFreeList : Bool
  intVal : Int
  numVal : ℚ
  strVal : STRING
deriving DecidableEq, Repr

/-- A PMC pointer: none is PMCNULL. -/
abbrev PMC := Option PMCData

/-- STRINGNULL of the C source. -/
def STRINGNULL : STRING := none

/-- PMCNULL of the C source. -/
def PMCNULL : PMC := none

/-- Modelled from the spec: PObj_on_free_list_TEST (GC header flag test, from
include/parrot, not under src/) — true when the object is already reclaimed /
on a free list.  On PMCNULL we take the flag to be false. -/
def PObj_on_free_list_TEST (p : PMC) : Bool :=
  match p with
  | none => false
  | some d => d.onFreeList

/-- Modelled from the spec: the polymorphic VTABLE get_integer entry
("invoke polymorphic get_integer" in the coercion table, §4.1). -/
def VTABLE_get_integer (p : PMC) : Int :=
  match p with
  | none => 0
  | some d => d.intVal

/-- Modelled from the spec: the polymorphic VTABLE get_number entry. -/
def VTABLE_get_number (p : PMC) : ℚ :=
  match p with
  | none => 0
  | some d => d.numVal

/-- Modelled from the spec: the polymorphic VTABLE get_string entry. -/
def VTABLE_get_string (p : PMC) : STRING :=
  match p with
  | none => STRINGNULL
  | some d => d.strVal

/-- Accumulate the leading decimal digits of a character list into an
integer, stopping at the first non-digit. -/
def parseDigits : List Char → Int → Int
  | [], acc => acc
  | c :: rest, acc =>
      if c.isDigit then parseDigits rest (acc * 10 + ((c.toNat : Int) - 48))
      else acc

/-- Modelled from the spec: Parrot_str_to_int (string library, not under
src/) — "parse-as-integer (0 if null/unparsable)": an optional sign followed
by leading decimal digits; text with no leading digits parses to 0. -/
def Parrot_str_to_int (s : String) : Int :=
  match s.data with
  | '-' :: rest => - parseDigits rest 0
  | '+' :: rest => parseDigits rest 0
  | cs => parseDigits cs 0

/-- Digit-list value as a natural number. -/
def digitsToNat (ds : List Char) : Nat :=
  ds.foldl (fun a c => a * 10 + (c.toNat - 48)) 0

/-- Modelled from the spec: Parrot_str_to_num (string library, not under
src/) — "parse-as-float (0.0 if null/unparsable)": optional sign, integer
part, optional fractional part; unparsable text yields 0. -/
def Parrot_str_to_num (s : String) : ℚ :=
  let body : Bool × List Char :=
    match s.data with
    | '-' :: rest => (true, rest)
    | '+' :: rest => (false, rest)
    | cs => (false, cs)
  let ip := body.2.takeWhile Char.isDigit
  let rest := body.2.dropWhile Char.isDigit
  let mag : ℚ :=
    (digitsToNat ip : ℚ) +
      (match rest with
       | '.' :: fs =>
           let fp := fs.takeWhile Char.isDigit
           (digitsToNat fp : ℚ) / ((10 : ℚ) ^ fp.length)
       | _ => 0)
  if body.1 then -mag else mag

/-- Modelled from the spec: Parrot_str_from_int — "format to text". -/
def Parrot_str_from_int (i : Int) : STRING := some (toString i)

/-- Modelled from the spec: Parrot_str_from_num — "format to text". -/
def Parrot_str_from_num (q : ℚ) : STRING := some (toString q)

/-- The C cast (INTVAL)f applied to a FLOATVAL: C truncates toward zero.
On a rational num/den (den > 0) this is the truncating integer division. -/
def intval_of_floatval (q : ℚ) : Int := q.num.tdiv (q.den : Int)

/-- A Pcc_cell: the C source is a union { Int i; ℚ n; STRING *s;
PMC *p; } together with an INTCELL/FLOATCELL/STRINGCELL/PMCCELL tag; every
write in signature.c sets the tag together with the matching union arm, so
the pair is embedded as a closed sum.  The constructor is CELL_TYPE_MASK and
the payload is CELL_INT / CELL_FLOAT / CELL_STRING / CELL_PMC. -/
inductive Pcc_cell where
  | intCell (v : Int)
  | floatCell (v : ℚ)
  | stringCell (v : STRING)
  | pmcCell (v : PMC)
deriving DecidableEq, Repr

/-- Modelled from the spec: Parrot_pmc_box_integer ("allocate boxed-integer
object"); the box is live and answers the scalar queries with the boxed
value. -/
def Parrot_pmc_box_integer (v : Int) : PMC :=
  some { onFreeList := false, intVal := v, numVal := (v : ℚ),
         strVal := Parrot_str_from_int v }

/-- Modelled from the spec: Parrot_pmc_box_number ("allocate boxed-float
object"). -/
def Parrot_pmc_box_number (q : ℚ) : PMC :=
  some { onFreeList := false, intVal := intval_of_floatval q, numVal := q,
         strVal := Parrot_str_from_num q }

/-- Modelled from the spec: Parrot_pmc_box_string ("allocate boxed-text
object"). -/
def Parrot_pmc_box_string (s : STRING) : PMC :=
  some { onFreeList := false,
         intVal := match s with | none => 0 | some str => Parrot_str_to_int str,
         numVal := match s with | none => 0 | some str => Parrot_str_to_num str,
         strVal := s }

/-- static INTVAL autobox_intval(PARROT_INTERP, const Pcc_cell *cell). -/
def autobox_intval (cell : Pcc_cell) : Int :=
  match cell with
  | .intCell v => v
  | .floatCell v => intval_of_floatval v
  | .stringCell s => match s with
      | none => 0
      | some str => Parrot_str_to_int str
  | .pmcCell p => VTABLE_get_integer p

/-- static FLOATVAL autobox_floatval(PARROT_INTERP, const Pcc_cell *cell). -/
def autobox_floatval (cell : Pcc_cell) : ℚ :=
  match cell with
  | .intCell v => (v : ℚ)
  | .floatCell v => v
  | .stringCell s => match s with
      | none => 0
      | some str => Parrot_str_to_num str
  | .pmcCell p => VTABLE_get_number p

/-- static STRING * autobox_string(PARROT_INTERP, const Pcc_cell *cell). -/
def autobox_string (cell : Pcc_cell) : STRING :=
  match cell with
  | .intCell v => Parrot_str_from_int v
  | .floatCell v => Parrot_str_from_num v
  | .stringCell s => s
  | .pmcCell p => VTABLE_get_string p

/-- static PMC * autobox_pmc(PARROT_INTERP, Pcc_cell *cell).  The C body
initialises result to PMCNULL and overwrites it per tag (the PMCCELL case
falls through to the empty default after setting result). -/
def autobox_pmc (cell : Pcc_cell) : PMC :=
  match cell with
  | .intCell v => Parrot_pmc_box_integer v
  | .floatCell v => Parrot_pmc_box_number v
  | .stringCell s => Parrot_pmc_box_string s
  | .pmcCell p => p

/-- The named-parameter hash: bucket list in iteration order, keyed by
Parrot STRING content (Hash_key_type_STRING).  Parrot's hash holds at most
one bucket per key. -/
abbrev Hash := List (String × Pcc_cell)

/-- Allocator events, sized in Pcc_cell slots: Parrot_gc_allocate_fixed_size_storage,
Parrot_gc_allocate_memory_chunk, Parrot_gc_free_fixed_size_storage,
Parrot_gc_free_memory_chunk. -/
inductive AllocEvent where
  | allocFixed (slots : Int)
  | allocChunk (slots : Int)
  | freeFixed (slots : Int)
  | freeChunk
deriving DecidableEq, Repr

/-- The Parrot_Signature aggregate.  positionals_null mirrors the nullness of
the C positionals pointer (NULL at fresh, non-NULL after any growth); the
list holds the allocated_positionals slots of the backing array. -/
structure Parrot_Signature where
  num_positionals : Int
  allocated_positionals : Int
  positionals : List Pcc_cell
  positionals_null : Bool
  hash : Option Hash
  type_tuple : PMC
  short_sig : STRING
  arg_flags : PMC
  return_flags : PMC
deriving DecidableEq, Repr

/-- Unspecified contents of backing-array slots in
[num_positionals, allocated_positionals): never read by the API. -/
def garbage_cell : Pcc_cell := .intCell 0

/-- The all-fields-zero Signature state: what memset(sig, 0, sizeof) would
produce and what the spec defines as the fresh state (zero positionals, no
named table, no metadata).  Cf. theorem C2 below: the source's
Parrot_pcc_signature_new memsets with byte 1 instead, so the struct it
returns is not this state. -/
def zeroSig : Parrot_Signature :=
  { num_positionals := 0
    allocated_positionals := 0
    positionals := []
    positionals_null := true
    hash := none
    type_tuple := PMCNULL
    short_sig := STRINGNULL
    arg_flags := PMCNULL
    return_flags := PMCNULL }

/-- Little-endian value of an 8-byte field every byte of which holds b (the
result of memset over that field). -/
def field_bytes_filled (b : Nat) : Nat :=
  (List.range 8).foldl (fun acc i => acc + b * 256 ^ i) 0

/-- The fill byte Parrot_pcc_signature_new passes to memset:
memset(sig, 1, sizeof (Parrot_Signature)). -/
def signature_new_memset_byte : Nat := 1

/-- The num_positionals INTVAL field of the struct Parrot_pcc_signature_new
returns, as left by its memset. -/
def new_sig_num_positionals_raw : Nat :=
  field_bytes_filled signature_new_memset_byte

/-- The hash pointer field of the struct Parrot_pcc_signature_new returns,
as left by its memset; the pointer is NULL exactly when this value is 0. -/
def new_sig_hash_ptr_raw : Nat :=
  field_bytes_filled signature_new_memset_byte

/-- static void ensure_positionals_storage(PARROT_INTERP, Parrot_Signature
*self, Int size).  Returns the updated Signature and the allocator events
(allocate new storage first, then free the old block if the pointer was
non-NULL, after memcpy-ing num_positionals cells across). -/
def ensure_positionals_storage (self : Parrot_Signature) (size : Int) :
    Parrot_Signature × List AllocEvent :=
  if size ≤ self.allocated_positionals then (self, [])
  else
    let size2 : Int := if size < 8 then 8 else size
    let allocEv : AllocEvent :=
      if size2 > 8 then .allocChunk size2 else .allocFixed size2
    if self.positionals_null then
      ({ self with
          positionals := List.replicate size2.toNat garbage_cell
          allocated_positionals := size2
          positionals_null := false },
       [allocEv])
    else
      let freeEv : AllocEvent :=
        if self.allocated_positionals > 8 then .freeChunk
        else .freeFixed self.allocated_positionals
      ({ self with
          positionals :=
            self.positionals.take self.num_positionals.toNat ++
              List.replicate (size2.toNat - self.num_positionals.toNat) garbage_cell
          allocated_positionals := size2
          positionals_null := false },
       [allocEv, freeEv])

/-- void Parrot_pcc_signature_push_integer. -/
def Parrot_pcc_signature_push_integer (self : Parrot_Signature)
    (value : Int) : Parrot_Signature × List AllocEvent :=
  let num_pos := self.num_positionals
  let grown := ensure_positionals_storage self (num_pos + 1)
  ({ grown.1 with
      positionals := grown.1.positionals.set num_pos.toNat (.intCell value)
      num_positionals := num_pos + 1 },
   grown.2)

/-- void Parrot_pcc_signature_push_float. -/
def Parrot_pcc_signature_push_float (self : Parrot_Signature)
    (value : ℚ) : Parrot_Signature × List AllocEvent :=
  let num_pos := self.num_positionals
  let grown := ensure_positionals_storage self (num_pos + 1)
  ({ grown.1 with
      positionals := grown.1.positionals.set num_pos.toNat (.floatCell value)
      num_positionals := num_pos + 1 },
   grown.2)

/-- void Parrot_pcc_signature_push_string. -/
def Parrot_pcc_signature_push_string (self : Parrot_Signature)
    (value : STRING) : Parrot_Signature × List AllocEvent :=
  let num_pos := self.num_positionals
  let grown := ensure_positionals_storage self (num_pos + 1)
  ({ grown.1 with
      positionals := grown.1.positionals.set num_pos.toNat (.stringCell value)
      num_positionals := num_pos + 1 },
   grown.2)

/-- void Parrot_pcc_signature_push_pmc.  The body opens with
PARROT_ASSERT(!PObj_on_free_list_TEST(value) || !"Push dead object into
CallContext!").  Modelled from the spec for the assert macro itself (it lives
in include/parrot, not under src/): a violated PARROT_ASSERT aborts, which we
render as Except.error carrying the assertion's message string. -/
def Parrot_pcc_signature_push_pmc (self : Parrot_Signature)
    (value : PMC) : Except String (Parrot_Signature × List AllocEvent) :=
  if PObj_on_free_list_TEST value then
    .error "Push dead object into CallContext!"
  else
    let num_pos := self.num_positionals
    let grown := ensure_positionals_storage self (num_pos + 1)
    .ok ({ grown.1 with
            positionals := grown.1.positionals.set num_pos.toNat (.pmcCell value)
            num_positionals := num_pos + 1 },
         grown.2)

/-- INTVAL Parrot_pcc_signature_num_positionals. -/
def Parrot_pcc_signature_num_positionals (self : Parrot_Signature) : Int :=
  self.num_positionals

/-- INTVAL Parrot_pcc_signature_get_integer.  Read-only: takes no state out. -/
def Parrot_pcc_signature_get_integer (self : Parrot_Signature)
    (key : Int) : Int :=
  if key ≥ self.num_positionals ∨ key < 0 then 0
  else autobox_intval (self.positionals.getD key.toNat garbage_cell)

/-- FLOATVAL Parrot_pcc_signature_get_number.  Read-only. -/
def Parrot_pcc_signature_get_number (self : Parrot_Signature)
    (key : Int) : ℚ :=
  if key ≥ self.num_positionals ∨ key < 0 then 0
  else autobox_floatval (self.positionals.getD key.toNat garbage_cell)

/-- STRING* Parrot_pcc_signature_get_string.  Read-only. -/
def Parrot_pcc_signature_get_string (self : Parrot_Signature)
    (key : Int) : STRING :=
  if key ≥ self.num_positionals ∨ key < 0 then STRINGNULL
  else autobox_string (self.positionals.getD key.toNat garbage_cell)

/-- PMC* Parrot_pcc_signature_get_pmc.  Read-only. -/
def Parrot_pcc_signature_get_pmc (self : Parrot_Signature)
    (key : Int) : PMC :=
  if key ≥ self.num_positionals ∨ key < 0 then PMCNULL
  else autobox_pmc (self.positionals.getD key.toNat garbage_cell)

/-- Parrot_hash_get over the bucket list, with STRING-content key equality
(Parrot_hash_key_from_string maps the STRING to the key it is stored
under). -/
def Parrot_hash_get (h : Hash) (k : String) : Option Pcc_cell :=
  match h.find? (fun kv => kv.1 == k) with
  | some kv => some kv.2
  | none => none

/-- INTVAL Parrot_hash_exists. -/
def Parrot_hash_exists (h : Hash) (k : String) : Int :=
  if h.any (fun kv => kv.1 == k) then 1 else 0

/-- The observable effect of get_cell_named followed by the caller writing
payload and tag into the returned cell: Parrot_hash_get finds an existing
bucket, whose cell is then overwritten in place; on a miss a fresh cell is
ALLOC_CELL-ed, filled, and inserted with Parrot_hash_put (a new bucket). -/
def write_cell_named (h : Hash) (k : String) (c : Pcc_cell) : Hash :=
  if h.any (fun kv => kv.1 == k) then
    h.map (fun kv => if kv.1 == k then (kv.1, c) else kv)
  else
    h ++ [(k, c)]

/-- void Parrot_pcc_signature_push_integer_named.  get_cell_named reads
self->hash without any lazy creation on this path (get_hash is only called
from clone), so with self->hash NULL the C dereferences a null pointer; the
embedding returns none for that undefined case. -/
def Parrot_pcc_signature_push_integer_named (self : Parrot_Signature)
    (key : String) (value : Int) : Option Parrot_Signature :=
  match self.hash with
  | none => none
  | some h => some { self with hash := some (write_cell_named h key (.intCell value)) }

/-- void Parrot_pcc_signature_push_number_named.  Same NULL-hash caveat as
Parrot_pcc_signature_push_integer_named. -/
def Parrot_pcc_signature_push_number_named (self : Parrot_Signature)
    (key : String) (value : ℚ) : Option Parrot_Signature :=
  match self.hash with
  | none => none
  | some h => some { self with hash := some (write_cell_named h key (.floatCell value)) }

/-- void Parrot_pcc_signature_push_string_named.  Same NULL-hash caveat. -/
def Parrot_pcc_signature_push_string_named (self : Parrot_Signature)
    (key : String) (value : STRING) : Option Parrot_Signature :=
  match self.hash with
  | none => none
  | some h => some { self with hash := some (write_cell_named h key (.stringCell value)) }

/-- void Parrot_pcc_signature_push_pmc_named.  Same NULL-hash caveat. -/
def Parrot_pcc_signature_push_pmc_named (self : Parrot_Signature)
    (key : String) (value : PMC) : Option Parrot_Signature :=
  match self.hash with
  | none => none
  | some h => some { self with hash := some (write_cell_named h key (.pmcCell value)) }

/-- INTVAL Parrot_pcc_signature_get_integer_named: if the hash is present and
holds the key, an INTCELL fast path returns CELL_INT, otherwise the cell is
autoboxed; absent hash or key yields 0. -/
def Parrot_pcc_signature_get_integer_named (self : Parrot_Signature)
    (key : String) : Int :=
  match self.hash with
  | some h =>
      match Parrot_hash_get h key with
      | some cell =>
          match cell with
          | .intCell v => v
          | _ => autobox_intval cell
      | none => 0
  | none => 0

/-- FLOATVAL Parrot_pcc_signature_get_number_named (no fast path in the
source; the cell is always autoboxed). -/
def Parrot_pcc_signature_get_number_named (self : Parrot_Signature)
    (key : String) : ℚ :=
  match self.hash with
  | some h =>
      match Parrot_hash_get h key with
      | some cell => autobox_floatval cell
      | none => 0
  | none => 0

/-- STRING * Parrot_pcc_signature_get_string_named. -/
def Parrot_pcc_signature_get_string_named (self : Parrot_Signature)
    (key : String) : STRING :=
  match self.hash with
  | some h =>
      match Parrot_hash_get h key with
      | some cell => autobox_string cell
      | none => STRINGNULL
  | none => STRINGNULL

/-- PMC * Parrot_pcc_signature_get_pmc_named, with its PMCCELL fast path. -/
def Parrot_pcc_signature_get_pmc_named (self : Parrot_Signature)
    (key : String) : PMC :=
  match self.hash with
  | some h =>
      match Parrot_hash_get h key with
      | some cell =>
          match cell with
          | .pmcCell p => p
          | _ => autobox_pmc cell
      | none => PMCNULL
  | none => PMCNULL

/-- INTVAL Parrot_pcc_signature_exists_named. -/
def Parrot_pcc_signature_exists_named (self : Parrot_Signature)
    (key : String) : Int :=
  match self.hash with
  | some h => Parrot_hash_exists h key
  | none => 0

/-- Parrot_Signature * Parrot_pcc_signature_clone: the returned value.  The C
body constructs a dest (itself corrupted: dest comes from the memset(1) of
Parrot_pcc_signature_new, so ensure_positionals_storage sees a huge
allocated_positionals and never allocates before the memcpy), refers to an
undeclared identifier hash instead of self->hash in the Parrot_hash_clone
call, and contains no return statement on any path: control falls off the
end of a function with non-void return type, so no defined Parrot_Signature
is ever returned.  The embedding models the (undefined) returned value as
none. -/
def Parrot_pcc_signature_clone (self : Parrot_Signature) :
    Option Parrot_Signature := none

/-- A reference reported to the garbage collector: a non-null STRING
(Parrot_gc_mark_STRING_alive) or a non-null PMC (Parrot_gc_mark_PMC_alive). -/
inductive GCRef where
  | str (s : String)
  | pmc (p : PMCData)
deriving DecidableEq, Repr

/-- static void mark_cell: the references one cell reports (STRINGCELL with
non-null string, PMCCELL with non-PMCNULL pmc; INTCELL/FLOATCELL report
nothing). -/
def mark_cell (c : Pcc_cell) : List GCRef :=
  match c with
  | .stringCell (some s) => [.str s]
  | .stringCell none => []
  | .pmcCell (some d) => [.pmc d]
  | .pmcCell none => []
  | .intCell _ => []
  | .floatCell _ => []

/-- static void mark_positionals: for (i = 0; i < num_positionals; ++i)
mark_cell(&positionals[i]). -/
def mark_positionals (self : Parrot_Signature) : List GCRef :=
  (List.range self.num_positionals.toNat).flatMap
    (fun i => mark_cell (self.positionals.getD i garbage_cell))

/-- static void mark_hash: each bucket marks its key STRING alive and then
its cell. -/
def mark_hash (h : Hash) : List GCRef :=
  h.flatMap (fun kv => GCRef.str kv.1 :: mark_cell kv.2)

/-- Modelled from the spec: the Signature's collector hook mark(sig) (§6,
"must visit every live reference transitively reachable from the
Signature"); there is no aggregate mark function in src/call/signature.c, so
it is composed from the in-source helpers mark_positionals and mark_hash,
the latter only when the named hash is present. -/
def Parrot_pcc_signature_mark (self : Parrot_Signature) : List GCRef :=
  mark_positionals self ++
    (match self.hash with
     | some h => mark_hash h
     | none => [])

/-- Spec-side description of one cell's live Text/Object reference, written
from the claim: a cell holds at most one reference; Integer/Float cells and
null references hold none. -/
def cellRef (c : Pcc_cell) : Option GCRef :=
  match c with
  | .stringCell (some s) => some (.str s)
  | .pmcCell (some d) => some (.pmc d)
  | _ => none

/-- Spec-side description, written from claim C10's words, of the live
Text/Object references a Signature holds: those of the positional cells
[0, count) plus, in named storage, every key and every cell value. -/
def sigLiveRefs (self : Parrot_Signature) : List GCRef :=
  (self.positionals.take self.num_positionals.toNat).filterMap cellRef ++
    (match self.hash with
     | some h => h.flatMap (fun kv => GCRef.str kv.1 :: (cellRef kv.2).toList)
     | none => [])

/-- A positional push of any of the four kinds. -/
inductive PushArg where
  | int (v : Int)
  | num (v : ℚ)
  | str (s : STRING)
  | pmc (p : PMC)
deriving DecidableEq, Repr

/-- The cell a push of this argument writes. -/
def cellOfArg : PushArg → Pcc_cell
  | .int v => .intCell v
  | .num v => .floatCell v
  | .str s => .stringCell s
  | .pmc p => .pmcCell p

/-- A push argument that passes the dead-object check (only PMC pushes are
checked). -/
def argLive : PushArg → Bool
  | .pmc p => !PObj_on_free_list_TEST p
  | _ => true

/-- Dispatch one positional push to the source function of its kind. -/
def pushArg (self : Parrot_Signature) (a : PushArg) :
    Except String (Parrot_Signature × List AllocEvent) :=
  match a with
  | .int v => .ok (Parrot_pcc_signature_push_integer self v)
  | .num v => .ok (Parrot_pcc_signature_push_float self v)
  | .str s => .ok (Parrot_pcc_signature_push_string self s)
  | .pmc p => Parrot_pcc_signature_push_pmc self p

/-- Run a sequence of positional pushes, concatenating allocator events. -/
def runPushes (self : Parrot_Signature) : List PushArg →
    Except String (Parrot_Signature × List AllocEvent)
  | [] => .ok (self, [])
  | a :: rest =>
      match pushArg self a with
      | .error e => .error e
      | .ok s1ev =>
          match runPushes s1ev.1 rest with
          | .error e => .error e
          | .ok s2ev => .ok (s2ev.1, s1ev.2 ++ s2ev.2)

/-- Dispatch one named push to the source function of its kind. -/
def pushNamedArg (self : Parrot_Signature) (key : String) :
    PushArg → Option Parrot_Signature
  | .int v => Parrot_pcc_signature_push_integer_named self key v
  | .num v => Parrot_pcc_signature_push_number_named self key v
  | .str s => Parrot_pcc_signature_push_string_named self key s
  | .pmc p => Parrot_pcc_signature_push_pmc_named self key p

/-- The live positional cells of a Signature: slots [0, num_positionals). -/
def liveCells (self : Parrot_Signature) : List Pcc_cell :=
  self.positionals.take self.num_positionals.toNat

/-- Well-formedness of the model state, i.e. the C representation invariants
every state reachable through the API satisfies: the backing list holds
exactly the allocated slots, counts are in range, and the positionals
pointer is NULL exactly while nothing is allocated. -/
def sig_wf (self : Parrot_Signature) : Prop :=
  self.positionals.length = self.allocated_positionals.toNat ∧
  0 ≤ self.num_positionals ∧
  self.num_positionals ≤ self.allocated_positionals ∧
  self.positionals_null = decide (self.allocated_positionals = 0)

instance (self : Parrot_Signature) : Decidable (sig_wf self) := by
  unfold sig_wf; infer_instance

/-- Concrete live PMC used by witnesses. -/
def livePmc : PMC :=
  some { onFreeList := false, intVal := 7, numVal := 7, strVal := some "seven" }

/-- Concrete reclaimed (on-free-list) PMC used by witnesses. -/
def deadPmc : PMC :=
  some { onFreeList := true, intVal := 0, numVal := 0, strVal := STRINGNULL }

/-- Truncation toward zero: the C cast (Int)f equals the floor for a
nonnegative operand and the ceiling for a negative one. -/
lemma intval_of_floatval_eq (q : ℚ) :
    intval_of_floatval q = if 0 ≤ q then ⌊q⌋ else ⌈q⌉ := by
  unfold intval_of_floatval
  by_cases h : 0 ≤ q
  · rw [if_pos h, Rat.floor_def,
      Int.tdiv_eq_ediv (Rat.num_nonneg.mpr h) (Int.natCast_nonneg q.den)]
  · rw [if_neg h]
    have hq : q < 0 := lt_of_not_ge h
    have hnum : 0 ≤ (-q).num := Rat.num_nonneg.mpr (by linarith)
    have key : q.num.tdiv (q.den : Int) = -((-q).num.tdiv (((-q).den : ℕ) : Int)) := by
      rw [Rat.neg_num, Rat.neg_den, Int.neg_tdiv, neg_neg]
    rw [key, Int.tdiv_eq_ediv hnum (Int.natCast_nonneg _), ← Rat.floor_def,
      Int.floor_neg, neg_neg]

/-- C2: the claim says Parrot_pcc_signature_new returns the fresh all-zero
state.  The source instead executes memset(sig, 1, sizeof (Parrot_Signature)),
filling every byte with 1, so the returned struct's num_positionals INTVAL
and hash pointer are the nonzero all-bytes-one patterns: the positional
count is not zero and the hash pointer is not NULL.  The rest of the file
(the lazy if (self->hash) checks, ensure_positionals_storage's comparison
against allocated_positionals) is designed around zero initialisation, so
the fill byte 1 is a slip for 0: the claim is right and the code wrong. -/
theorem C2_new_memset_nonzero :
    new_sig_num_positionals_raw ≠ 0 ∧ new_sig_hash_ptr_raw ≠ 0 := by
  decide

/-- C4: the claim (and the spec's own design note) require clone to return a
fully-populated independent Signature; the C body of
Parrot_pcc_signature_clone contains no return statement on any path, so no
constructed Signature is ever returned (the body is further broken: it reads
the undeclared identifier hash and memcpy-s into storage the memset(1)-
corrupted dest never allocated).  Evaluating the embedded returned value at
a concrete input: cloning the fresh zero Signature yields nothing. -/
theorem C4_clone_no_return : Parrot_pcc_signature_clone zeroSig = none := rfl

/-- C5: the autobox coercion table — stored Integer read as Float is the
exact widening; stored Float read as Integer truncates toward zero (floor
for nonnegative, ceiling for negative); Text "42" reads as Integer 42;
unparsable Text "abc" reads as 0; a null text reference coerced to Integer
or Float yields 0 / 0.0. -/
theorem C5_autobox_table :
    (∀ v : Int, autobox_floatval (.intCell v) = (v : ℚ)) ∧
    (∀ q : ℚ, autobox_intval (.floatCell q) = if 0 ≤ q then ⌊q⌋ else ⌈q⌉) ∧
    autobox_intval (.stringCell (some "42")) = 42 ∧
    autobox_intval (.stringCell (some "abc")) = 0 ∧
    autobox_intval (.stringCell STRINGNULL) = 0 ∧
    autobox_floatval (.stringCell STRINGNULL) = 0 := by
  refine ⟨fun v => rfl, fun q => intval_of_floatval_eq q, ?_, ?_, rfl, rfl⟩
  · decide
  · decide

/-- C6: every positional getter returns its target type's zero value on an
index at or past num_positionals or below 0.  The getters are read-only
functions of the Signature (the C takes the struct only to read it), so no
mutation is possible. -/
theorem C6_out_of_range_zero (s : Parrot_Signature) (i : Int)
    (h : i ≥ s.num_positionals ∨ i < 0) :
    Parrot_pcc_signature_get_integer s i = 0 ∧
    Parrot_pcc_signature_get_number s i = 0 ∧
    Parrot_pcc_signature_get_string s i = STRINGNULL ∧
    Parrot_pcc_signature_get_pmc s i = PMCNULL := by
  unfold Parrot_pcc_signature_get_integer Parrot_pcc_signature_get_number
    Parrot_pcc_signature_get_string Parrot_pcc_signature_get_pmc
  rw [if_pos h, if_pos h, if_pos h, if_pos h]
  exact ⟨rfl, rfl, rfl, rfl⟩

/-- Witness for C6 at the fresh zero Signature and index -1. -/
theorem C6_witness :
    ((-1 : Int) ≥ zeroSig.num_positionals ∨ (-1 : Int) < 0) ∧
    (Parrot_pcc_signature_get_integer zeroSig (-1) = 0 ∧
     Parrot_pcc_signature_get_number zeroSig (-1) = 0 ∧
     Parrot_pcc_signature_get_string zeroSig (-1) = STRINGNULL ∧
     Parrot_pcc_signature_get_pmc zeroSig (-1) = PMCNULL) :=
  ⟨by decide, C6_out_of_range_zero zeroSig (-1) (by decide)⟩

/-- C3: on a Signature whose named store is absent (hash = NULL, as on any
Signature with no named write yet), every named query returns the target
type's zero value and exists_named reports false (0).  The queries are
read-only functions of the Signature: they take no state out and so cannot
instantiate or allocate the table. -/
theorem C3_named_absent_queries (s : Parrot_Signature) (hnone : s.hash = none)
    (key : String) :
    Parrot_pcc_signature_get_integer_named s key = 0 ∧
    Parrot_pcc_signature_get_number_named s key = 0 ∧
    Parrot_pcc_signature_get_string_named s key = STRINGNULL ∧
    Parrot_pcc_signature_get_pmc_named s key = PMCNULL ∧
    Parrot_pcc_signature_exists_named s key = 0 := by
  unfold Parrot_pcc_signature_get_integer_named Parrot_pcc_signature_get_number_named
    Parrot_pcc_signature_get_string_named Parrot_pcc_signature_get_pmc_named
    Parrot_pcc_signature_exists_named
  rw [hnone]
  exact ⟨rfl, rfl, rfl, rfl, rfl⟩

/-- Witness for C3 at the fresh zero Signature and key "x". -/
theorem C3_witness :
    zeroSig.hash = none ∧
    (Parrot_pcc_signature_get_integer_named zeroSig "x" = 0 ∧
     Parrot_pcc_signature_get_number_named zeroSig "x" = 0 ∧
     Parrot_pcc_signature_get_string_named zeroSig "x" = STRINGNULL ∧
     Parrot_pcc_signature_get_pmc_named zeroSig "x" = PMCNULL ∧
     Parrot_pcc_signature_exists_named zeroSig "x" = 0) :=
  ⟨rfl, C3_named_absent_queries zeroSig rfl "x"⟩

/-- Setting slot n and keeping the first n+1 slots appends the new cell to
the first n old slots. -/
lemma take_set_succ {α : Type} : ∀ (l : List α) (n : Nat) (a : α), n < l.length →
    (l.set n a).take (n + 1) = l.take n ++ [a]
  | _ :: _, 0, _, _ => rfl
  | x :: xs, n + 1, a, h =>
      congrArg (x :: ·) (take_set_succ xs n a (Nat.lt_of_succ_lt_succ h))

/-- ensure_positionals_storage, called with room for one more positional,
preserves well-formedness, the count, the live cells and the hash, and
guarantees capacity for the new slot. -/
lemma ensure_succ_spec (s : Parrot_Signature) (hwf : sig_wf s) :
    sig_wf (ensure_positionals_storage s (s.num_positionals + 1)).1 ∧
    (ensure_positionals_storage s (s.num_positionals + 1)).1.num_positionals
      = s.num_positionals ∧
    s.num_positionals + 1
      ≤ (ensure_positionals_storage s (s.num_positionals + 1)).1.allocated_positionals ∧
    liveCells (ensure_positionals_storage s (s.num_positionals + 1)).1 = liveCells s ∧
    (ensure_positionals_storage s (s.num_positionals + 1)).1.hash = s.hash := by
  obtain ⟨hlen, hnn, hle, hnull⟩ := hwf
  by_cases h1 : s.num_positionals + 1 ≤ s.allocated_positionals
  · have he : ensure_positionals_storage s (s.num_positionals + 1) = (s, []) := by
      simp only [ensure_positionals_storage, if_pos h1]
    rw [he]
    exact ⟨⟨hlen, hnn, hle, hnull⟩, rfl, h1, rfl, rfl⟩
  · simp only [ensure_positionals_storage, liveCells]
    rw [if_neg h1]
    by_cases h2 : s.positionals_null = true
    · have ha0 : s.allocated_positionals = 0 := by
        rw [h2] at hnull; exact of_decide_eq_true hnull.symm
      have h0 : s.num_positionals = 0 := by omega
      rw [if_pos h2]
      dsimp only
      set A := (if s.num_positionals + 1 < 8 then (8:Int) else s.num_positionals + 1)
        with hA
      have hAge : s.num_positionals + 1 ≤ A ∧ 8 ≤ A := by rw [hA]; split <;> omega
      refine ⟨⟨by simp, hnn, by (try dsimp only); omega,
          (decide_eq_false (by omega : ¬ A = 0)).symm⟩, rfl, by (try dsimp only); omega,
          ?_, rfl⟩
      (try dsimp only)
      simp [h0]
    · have hb : s.positionals_null = false := by
        cases hc : s.positionals_null
        · rfl
        · exact absurd hc h2
      have ha0 : ¬ s.allocated_positionals = 0 := by
        rw [hb] at hnull; exact of_decide_eq_false hnull.symm
      rw [if_neg h2]
      dsimp only
      set A := (if s.num_positionals + 1 < 8 then (8:Int) else s.num_positionals + 1)
        with hA
      have hAge : s.num_positionals + 1 ≤ A ∧ 8 ≤ A := by rw [hA]; split <;> omega
      have htk : (s.positionals.take s.num_positionals.toNat).length
          = s.num_positionals.toNat := by
        simp [hlen]; omega
      refine ⟨⟨?_, hnn, by (try dsimp only); omega,
          (decide_eq_false (by omega : ¬ A = 0)).symm⟩, rfl, by (try dsimp only); omega,
          ?_, rfl⟩
      · (try dsimp only)
        simp only [List.length_append, List.length_replicate, htk]
        omega
      · (try dsimp only)
        rw [List.take_left' htk]

/-- Every push that passes the dead-object check reduces to the common
ensure-then-write-at-count pattern of the four source push functions. -/
lemma pushArg_eq (s : Parrot_Signature) (a : PushArg) (ha : argLive a = true) :
    pushArg s a = .ok
      ({ (ensure_positionals_storage s (s.num_positionals + 1)).1 with
          positionals :=
            (ensure_positionals_storage s (s.num_positionals + 1)).1.positionals.set
              s.num_positionals.toNat (cellOfArg a)
          num_positionals := s.num_positionals + 1 },
       (ensure_positionals_storage s (s.num_positionals + 1)).2) := by
  cases a with
  | int v => rfl
  | num v => rfl
  | str v => rfl
  | pmc p =>
      have hp : PObj_on_free_list_TEST p = false := by simpa [argLive] using ha
      simp [pushArg, Parrot_pcc_signature_push_pmc, hp, cellOfArg]

/-- One successful positional push: the count goes up by one, the pushed
cell is appended to the live cells, and everything else is preserved. -/
lemma pushArg_spec (s : Parrot_Signature) (a : PushArg) (hwf : sig_wf s)
    (ha : argLive a = true) :
    ∃ s1, pushArg s a
        = .ok (s1, (ensure_positionals_storage s (s.num_positionals + 1)).2) ∧
      sig_wf s1 ∧
      s1.num_positionals = s.num_positionals + 1 ∧
      s1.allocated_positionals
        = (ensure_positionals_storage s (s.num_positionals + 1)).1.allocated_positionals ∧
      liveCells s1 = liveCells s ++ [cellOfArg a] ∧
      s1.hash = s.hash := by
  obtain ⟨twf, tnum, tge, tlive, thash⟩ := ensure_succ_spec s hwf
  obtain ⟨tlen, tnn, tle, tnull⟩ := twf
  obtain ⟨hlen, hnn, hle, hnull⟩ := hwf
  refine ⟨_, pushArg_eq s a ha, ⟨?_, ?_, ?_, ?_⟩, rfl, rfl, ?_, thash⟩
  · simpa using tlen
  · dsimp only; omega
  · dsimp only; exact tge
  · dsimp only
    rw [tnull]
  · dsimp only [liveCells]
    have hn1 : (s.num_positionals + 1).toNat = s.num_positionals.toNat + 1 := by omega
    rw [hn1, take_set_succ _ _ _ (by rw [tlen]; omega)]
    have : (ensure_positionals_storage s (s.num_positionals + 1)).1.positionals.take
        s.num_positionals.toNat = liveCells s := by
      rw [← tlive, liveCells, tnum]
    rw [this, liveCells]

/-- Running a list of live pushes succeeds and appends the pushed cells in
order, adding the list length to the count and leaving the hash alone. -/
lemma runPushes_spec : ∀ (args : List PushArg) (s : Parrot_Signature),
    sig_wf s → (∀ a ∈ args, argLive a = true) →
    ∃ s2 ev, runPushes s args = .ok (s2, ev) ∧ sig_wf s2 ∧
      s2.num_positionals = s.num_positionals + args.length ∧
      liveCells s2 = liveCells s ++ args.map cellOfArg ∧
      s2.hash = s.hash
  | [], s, hwf, _ => ⟨s, [], rfl, hwf, by simp, by simp, rfl⟩
  | a :: rest, s, hwf, hlive => by
      obtain ⟨s1, heq, hwf1, hnum1, _, hlc1, hh1⟩ :=
        pushArg_spec s a hwf (hlive a (List.mem_cons_self a rest))
      obtain ⟨s2, ev2, heq2, hwf2, hnum2, hlc2, hh2⟩ :=
        runPushes_spec rest s1 hwf1 (fun b hb => hlive b (List.mem_cons_of_mem a hb))
      refine ⟨s2, (ensure_positionals_storage s (s.num_positionals + 1)).2 ++ ev2,
        ?_, hwf2, ?_, ?_, ?_⟩
      · simp only [runPushes, heq, heq2]
      · rw [hnum2, hnum1]; simp only [List.length_cons]; omega
      · rw [hlc2, hlc1]; simp
      · rw [hh2, hh1]

/-- C1: any sequence of N positional pushes of any mix of kinds onto the
fresh (zeroed) Signature succeeds; num_positionals then returns N, and
reading each index at its native type returns the pushed value unchanged, in
insertion order.  (The fresh state is the zeroed struct the rest of the code
is designed around; the memset slip inside Parrot_pcc_signature_new itself
is claim C2.) -/
theorem C1_positional_roundtrip (args : List PushArg)
    (hlive : ∀ a ∈ args, argLive a = true) :
    ∃ s2 ev, runPushes zeroSig args = .ok (s2, ev) ∧
      Parrot_pcc_signature_num_positionals s2 = args.length ∧
      ∀ i : Nat, ∀ hi : i < args.length,
        (match args.get ⟨i, hi⟩ with
         | .int v => Parrot_pcc_signature_get_integer s2 i = v
         | .num v => Parrot_pcc_signature_get_number s2 i = v
         | .str v => Parrot_pcc_signature_get_string s2 i = v
         | .pmc p => Parrot_pcc_signature_get_pmc s2 i = p) := by
  obtain ⟨s2, ev, heq, hwf2, hnum, hlc, _⟩ := runPushes_spec args zeroSig (by decide) hlive
  have hnum2 : s2.num_positionals = (args.length : Int) := by
    simpa [zeroSig] using hnum
  have hlc2 : liveCells s2 = args.map cellOfArg := by
    simpa [zeroSig, liveCells] using hlc
  refine ⟨s2, ev, heq, hnum2, ?_⟩
  intro i hi
  obtain ⟨hlen2, hnn2, hle2, _⟩ := hwf2
  have hcond : ¬ ((i : Int) ≥ s2.num_positionals ∨ (i : Int) < 0) := by
    rw [hnum2]; push_neg
    exact ⟨by exact_mod_cast hi, Int.natCast_nonneg i⟩
  have hin : i < s2.num_positionals.toNat := by omega
  have hidx : s2.positionals.getD ((i : Int)).toNat garbage_cell
      = cellOfArg (args.get ⟨i, hi⟩) := by
    have h1 : ((i : Int)).toNat = i := by omega
    have h2 : s2.positionals.getD i garbage_cell
        = (liveCells s2).getD i garbage_cell := by
      rw [liveCells, List.getD_eq_getElem?_getD, List.getD_eq_getElem?_getD,
        List.getElem?_take_of_lt hin]
    rw [h1, h2, hlc2, List.getD_eq_getElem?_getD, List.getElem?_map,
      List.getElem?_eq_getElem (by omega : i < args.length)]
    simp
  rcases hga : args.get ⟨i, hi⟩ with v | v | v | p <;> rw [hga] at hidx
  · simp only [Parrot_pcc_signature_get_integer, if_neg hcond, hidx, cellOfArg,
      autobox_intval]
  · simp only [Parrot_pcc_signature_get_number, if_neg hcond, hidx, cellOfArg,
      autobox_floatval]
  · simp only [Parrot_pcc_signature_get_string, if_neg hcond, hidx, cellOfArg,
      autobox_string]
  · simp only [Parrot_pcc_signature_get_pmc, if_neg hcond, hidx, cellOfArg,
      autobox_pmc]

/-- Concrete mixed push list for the C1 witness. -/
def c1args : List PushArg :=
  [.int 3, .num (7/2), .str (some "hi"), .str STRINGNULL, .pmc livePmc,
   .pmc PMCNULL]

/-- Witness for C1: a concrete mixed sequence of six pushes. -/
theorem C1_witness :
    (∀ a ∈ c1args, argLive a = true) ∧
    (∃ s2 ev, runPushes zeroSig c1args = .ok (s2, ev) ∧
      Parrot_pcc_signature_num_positionals s2 = c1args.length ∧
      ∀ i : Nat, ∀ hi : i < c1args.length,
        (match c1args.get ⟨i, hi⟩ with
         | .int v => Parrot_pcc_signature_get_integer s2 i = v
         | .num v => Parrot_pcc_signature_get_number s2 i = v
         | .str v => Parrot_pcc_signature_get_string s2 i = v
         | .pmc p => Parrot_pcc_signature_get_pmc s2 i = p)) :=
  ⟨by decide, C1_positional_roundtrip c1args (by decide)⟩

/-- C9: pushing an object reference that is already on the free list makes
Parrot_pcc_signature_push_pmc fail with the assertion's error instead of
storing anything; pushing any live (not-on-free-list) reference succeeds and
appends exactly that reference. -/
theorem C9_dead_pmc_push (s : Parrot_Signature) (hwf : sig_wf s) (p : PMC) :
    (PObj_on_free_list_TEST p = true →
      Parrot_pcc_signature_push_pmc s p
        = .error "Push dead object into CallContext!") ∧
    (PObj_on_free_list_TEST p = false →
      ∃ s1 ev, Parrot_pcc_signature_push_pmc s p = .ok (s1, ev) ∧
        s1.num_positionals = s.num_positionals + 1 ∧
        liveCells s1 = liveCells s ++ [Pcc_cell.pmcCell p]) := by
  constructor
  · intro hd
    simp [Parrot_pcc_signature_push_pmc, hd]
  · intro hl
    obtain ⟨s1, heq, _, hnum, _, hlc, _⟩ :=
      pushArg_spec s (.pmc p) hwf (by simp [argLive, hl])
    exact ⟨s1, _, heq, hnum, by simpa [cellOfArg] using hlc⟩

/-- Witness for C9 at the fresh zero Signature: a dead push aborts, a live
push succeeds and appends. -/
theorem C9_witness :
    sig_wf zeroSig ∧
    Parrot_pcc_signature_push_pmc zeroSig deadPmc
      = .error "Push dead object into CallContext!" ∧
    (∃ s1 ev, Parrot_pcc_signature_push_pmc zeroSig livePmc = .ok (s1, ev) ∧
      s1.num_positionals = zeroSig.num_positionals + 1 ∧
      liveCells s1 = liveCells zeroSig ++ [Pcc_cell.pmcCell livePmc]) :=
  ⟨by decide,
   (C9_dead_pmc_push zeroSig (by decide) deadPmc).1 (by decide),
   (C9_dead_pmc_push zeroSig (by decide) livePmc).2 (by decide)⟩

/-- ensure_positionals_storage does nothing when there is already room. -/
lemma ensure_noop (s : Parrot_Signature) (size : Int)
    (h : size ≤ s.allocated_positionals) :
    ensure_positionals_storage s size = (s, []) := by
  simp only [ensure_positionals_storage, if_pos h]

/-- Pushes within the already-allocated capacity generate no allocator
events at all. -/
lemma runPushes_within_capacity : ∀ (args : List PushArg) (s : Parrot_Signature),
    sig_wf s → (∀ a ∈ args, argLive a = true) →
    s.num_positionals + args.length ≤ s.allocated_positionals →
    ∃ s2, runPushes s args = .ok (s2, []) ∧ sig_wf s2 ∧
      s2.num_positionals = s.num_positionals + args.length ∧
      s2.allocated_positionals = s.allocated_positionals ∧
      liveCells s2 = liveCells s ++ args.map cellOfArg ∧ s2.hash = s.hash
  | [], s, hwf, _, _ => ⟨s, rfl, hwf, by simp, rfl, by simp, rfl⟩
  | a :: rest, s, hwf, hlive, hcap => by
      have hcap1 : s.num_positionals + 1 ≤ s.allocated_positionals := by
        simp only [List.length_cons] at hcap; omega
      obtain ⟨s1, heq, hwf1, hnum1, halloc1, hlc1, hh1⟩ :=
        pushArg_spec s a hwf (hlive a (List.mem_cons_self a rest))
      rw [ensure_noop s _ hcap1] at heq halloc1
      dsimp only at heq halloc1
      obtain ⟨s2, heq2, hwf2, hnum2, halloc2, hlc2, hh2⟩ :=
        runPushes_within_capacity rest s1 hwf1
          (fun b hb => hlive b (List.mem_cons_of_mem a hb))
          (by rw [hnum1, halloc1]; simp only [List.length_cons] at hcap; omega)
      refine ⟨s2, ?_, hwf2, ?_, ?_, ?_, ?_⟩
      · simp only [runPushes, heq, heq2, List.nil_append]
      · rw [hnum2, hnum1]; simp only [List.length_cons]; omega
      · rw [halloc2, halloc1]
      · rw [hlc2, hlc1]; simp
      · rw [hh2, hh1]

/-- The first growth of the fresh zero Signature: one fixed-size-pool
allocation of exactly 8 slots. -/
lemma ensure_zero_first :
    ensure_positionals_storage zeroSig (zeroSig.num_positionals + 1)
      = ({ zeroSig with
            positionals := List.replicate 8 garbage_cell
            allocated_positionals := 8
            positionals_null := false },
         [.allocFixed 8]) := by
  decide

/-- The first push onto the fresh zero Signature allocates the 8-slot pooled
array and stores the cell in slot 0. -/
lemma first_push_spec (a : PushArg) (ha : argLive a = true) :
    ∃ s1, pushArg zeroSig a = .ok (s1, [.allocFixed 8]) ∧ sig_wf s1 ∧
      s1.num_positionals = 1 ∧ s1.allocated_positionals = 8 ∧
      liveCells s1 = [cellOfArg a] ∧ s1.hash = none := by
  obtain ⟨s1, heq, hwf1, hnum1, halloc1, hlc1, hh1⟩ :=
    pushArg_spec zeroSig a (by decide) ha
  rw [ensure_zero_first] at heq halloc1
  exact ⟨s1, heq, hwf1, by simpa [zeroSig] using hnum1, by simpa using halloc1,
    by simpa [zeroSig, liveCells] using hlc1, by simpa [zeroSig] using hh1⟩

/-- Growing a full 8-slot pooled array for a ninth cell: one chunk
allocation of 9 slots, a copy of the 8 live cells, and the release of the
pooled 8-slot block. -/
lemma ensure_ninth (s : Parrot_Signature) (hwf : sig_wf s)
    (halloc : s.allocated_positionals = 8) (hnum : s.num_positionals = 8) :
    ensure_positionals_storage s (s.num_positionals + 1)
      = ({ s with
            positionals := liveCells s ++ [garbage_cell]
            allocated_positionals := 9
            positionals_null := false },
         [.allocChunk 9, .freeFixed 8]) := by
  obtain ⟨hlen, hnn, hle, hnull⟩ := hwf
  have hb : s.positionals_null = false := by rw [hnull, halloc]; rfl
  rw [hnum]
  simp only [ensure_positionals_storage, liveCells, hb, halloc, hnum]
  norm_num
  rfl

/-- runPushes over an appended list composes, concatenating events. -/
lemma runPushes_append : ∀ (l1 : List PushArg) (s : Parrot_Signature)
    (l2 : List PushArg),
    runPushes s (l1 ++ l2) =
      match runPushes s l1 with
      | .error e => .error e
      | .ok s1ev =>
          match runPushes s1ev.1 l2 with
          | .error e => .error e
          | .ok s2ev => .ok (s2ev.1, s1ev.2 ++ s2ev.2)
  | [], s, l2 => by
      simp only [List.nil_append, runPushes]
      cases runPushes s l2 with
      | error e => rfl
      | ok s2ev => rfl
  | a :: t, s, l2 => by
      simp only [List.cons_append, runPushes]
      cases hpa : pushArg s a with
      | error e => rfl
      | ok s1ev =>
          dsimp only
          simp only [List.append_eq]
          rw [runPushes_append t s1ev.1 l2]
          cases runPushes s1ev.1 t with
          | error e => rfl
          | ok s2ev =>
              dsimp only
              cases runPushes s2ev.1 l2 with
              | error e => rfl
              | ok s3ev => simp

/-- The ninth push onto a full pooled array: exactly one reallocation —
chunk-allocate 9 slots, copy the 8 live cells, free the pooled block — and
the cell is appended. -/
lemma ninth_push_spec (s : Parrot_Signature) (a : PushArg) (hwf : sig_wf s)
    (halloc : s.allocated_positionals = 8) (hnum : s.num_positionals = 8)
    (ha : argLive a = true) :
    ∃ s9, pushArg s a = .ok (s9, [.allocChunk 9, .freeFixed 8]) ∧
      liveCells s9 = liveCells s ++ [cellOfArg a] ∧
      s9.num_positionals = 9 := by
  obtain ⟨s9, heq, _, hnum9, _, hlc9, _⟩ := pushArg_spec s a hwf ha
  rw [ensure_ninth s hwf halloc hnum] at heq
  exact ⟨s9, heq, hlc9, by omega⟩

/-- C8: pushing positionals one at a time onto the fresh zero Signature —
for at most 8 pushes the only allocator event is the single first-growth
fixed-pool allocation of 8 slots (in particular no chunk allocation ever
happens), and a 9th push produces exactly one reallocation: a 9-slot chunk
allocation, the copy of the existing cells (their values are preserved, as
the final live cells show), and the release of the pooled 8-slot block. -/
theorem C8_growth_boundary (args : List PushArg)
    (hlive : ∀ a ∈ args, argLive a = true) :
    (args.length ≤ 8 →
      ∃ s2 ev, runPushes zeroSig args = .ok (s2, ev) ∧
        ev = if args.length = 0 then [] else [.allocFixed 8]) ∧
    (args.length = 9 →
      ∃ s2, runPushes zeroSig args
          = .ok (s2, [.allocFixed 8, .allocChunk 9, .freeFixed 8]) ∧
        liveCells s2 = args.map cellOfArg) := by
  constructor
  · intro h8
    cases args with
    | nil => exact ⟨zeroSig, [], rfl, by simp⟩
    | cons a rest =>
        obtain ⟨s1, heq1, hwf1, hnum1, halloc1, hlc1, _⟩ :=
          first_push_spec a (hlive a (List.mem_cons_self a rest))
        obtain ⟨s2, heq2, _, _, _, _, _⟩ :=
          runPushes_within_capacity rest s1 hwf1
            (fun b hb => hlive b (List.mem_cons_of_mem a hb))
            (by rw [hnum1, halloc1]; simp only [List.length_cons] at h8; omega)
        refine ⟨s2, [.allocFixed 8], ?_, by simp⟩
        simp only [runPushes, heq1, heq2, List.append_nil]
  · intro h9
    cases args with
    | nil => simp at h9
    | cons a rest =>
        have hr : rest.length = 8 := by
          simp only [List.length_cons] at h9; omega
        obtain ⟨b, hb⟩ : ∃ b, rest.drop 7 = [b] :=
          List.length_eq_one.mp (by simp [hr])
        have hsplit : rest = rest.take 7 ++ [b] := by
          conv_lhs => rw [← List.take_append_drop 7 rest]
          rw [hb]
        have h7 : (rest.take 7).length = 7 := by simp [hr]
        obtain ⟨s1, heq1, hwf1, hnum1, halloc1, hlc1, _⟩ :=
          first_push_spec a (hlive a (List.mem_cons_self a rest))
        obtain ⟨s8, heq2, hwf8, hnum8, halloc8, hlc8, _⟩ :=
          runPushes_within_capacity (rest.take 7) s1 hwf1
            (fun c hc => hlive c (List.mem_cons_of_mem a (List.mem_of_mem_take hc)))
            (by rw [hnum1, halloc1, h7]; norm_num)
        have hnum8' : s8.num_positionals = 8 := by rw [hnum8, hnum1, h7]; norm_num
        have halloc8' : s8.allocated_positionals = 8 := by rw [halloc8, halloc1]
        have hblive : argLive b = true := by
          refine hlive b (List.mem_cons_of_mem a ?_)
          rw [hsplit]
          exact List.mem_append_right _ (List.mem_singleton_self b)
        obtain ⟨s9, heq3, hlc9, _⟩ :=
          ninth_push_spec s8 b hwf8 halloc8' hnum8' hblive
        refine ⟨s9, ?_, ?_⟩
        · have hrun : runPushes zeroSig (a :: rest)
              = runPushes zeroSig (a :: (rest.take 7 ++ [b])) := by rw [← hsplit]
          rw [hrun]
          simp [runPushes, heq1, runPushes_append, heq2, heq3]
        · rw [hlc9, hlc8, hlc1, hsplit]
          simp
          rw [List.take_left' (by simp [hr])]

/-- Concrete eight-push list for the C8 witness. -/
def c8args8 : List PushArg :=
  [.int 1, .int 2, .num (1/2), .str (some "s"), .int 5, .int 6, .int 7, .int 8]

/-- Concrete nine-push list for the C8 witness. -/
def c8args9 : List PushArg := c8args8 ++ [.int 9]

/-- Witness for C8: eight pushes cost one pooled allocation and no chunk;
the ninth triggers the single pooled-to-chunk reallocation. -/
theorem C8_witness :
    (∀ a ∈ c8args8, argLive a = true) ∧ (∀ a ∈ c8args9, argLive a = true) ∧
    (∃ s2 ev, runPushes zeroSig c8args8 = .ok (s2, ev) ∧
      ev = if c8args8.length = 0 then [] else [.allocFixed 8]) ∧
    (∃ s2, runPushes zeroSig c8args9
        = .ok (s2, [.allocFixed 8, .allocChunk 9, .freeFixed 8]) ∧
      liveCells s2 = c8args9.map cellOfArg) :=
  ⟨by decide, by decide,
   (C8_growth_boundary c8args8 (by decide)).1 (by decide),
   (C8_growth_boundary c8args9 (by decide)).2 (by decide)⟩

/-- The four named pushes all reduce to write_cell_named on a present hash. -/
lemma pushNamedArg_eq (s : Parrot_Signature) (h0 : Hash) (hh : s.hash = some h0)
    (key : String) (a : PushArg) :
    pushNamedArg s key a
      = some { s with hash := some (write_cell_named h0 key (cellOfArg a)) } := by
  cases a <;>
    simp [pushNamedArg, Parrot_pcc_signature_push_integer_named,
      Parrot_pcc_signature_push_number_named,
      Parrot_pcc_signature_push_string_named,
      Parrot_pcc_signature_push_pmc_named, hh, cellOfArg]

/-- Overwriting a key that no bucket carries leaves every bucket alone. -/
lemma map_write_id (key : String) (c : Pcc_cell) : ∀ (t : Hash),
    (∀ kv ∈ t, (kv.1 == key) = false) →
    t.map (fun kv => if kv.1 == key then (kv.1, c) else kv) = t
  | [], _ => rfl
  | kv :: t, h => by
      have h1 := h kv (List.mem_cons_self kv t)
      simp only [List.map_cons, h1, Bool.false_eq_true, if_false]
      exact congrArg (kv :: ·)
        (map_write_id key c t (fun x hx => h x (List.mem_cons_of_mem kv hx)))

/-- Filtering for a key no bucket carries gives nothing. -/
lemma filter_key_nil (key : String) : ∀ (t : Hash),
    (∀ kv ∈ t, (kv.1 == key) = false) →
    t.filter (fun kv => kv.1 == key) = []
  | [], _ => rfl
  | kv :: t, h => by
      have h1 := h kv (List.mem_cons_self kv t)
      simp only [List.filter_cons, h1, Bool.false_eq_true, if_false]
      exact filter_key_nil key t (fun x hx => h x (List.mem_cons_of_mem kv hx))

/-- Overwriting a present key (with buckets carrying pairwise distinct keys,
the hash invariant): afterwards exactly one bucket carries the key and it
holds the new cell, and every other bucket is untouched. -/
lemma write_present_core (key : String) (c : Pcc_cell) : ∀ (t : Hash),
    (t.map Prod.fst).Nodup → t.any (fun kv => kv.1 == key) = true →
    (t.map (fun kv => if kv.1 == key then (kv.1, c) else kv)).filter
        (fun kv => kv.1 == key) = [(key, c)] ∧
    (t.map (fun kv => if kv.1 == key then (kv.1, c) else kv)).filter
        (fun kv => !(kv.1 == key)) = t.filter (fun kv => !(kv.1 == key))
  | [], _, hany => by simp at hany
  | kv :: t, hnd, hany => by
      have hnd2 : (kv.1 :: t.map Prod.fst).Nodup := by simpa using hnd
      obtain ⟨hnotin, hndt⟩ := List.nodup_cons.mp hnd2
      by_cases hk : (kv.1 == key) = true
      · have hkey : kv.1 = key := by simpa using hk
        have htail : ∀ x ∈ t, (x.1 == key) = false := by
          intro x hx
          have hne : x.1 ≠ kv.1 := fun hc =>
            hnotin (hc ▸ List.mem_map_of_mem Prod.fst hx)
          rw [hkey] at hne
          simpa using hne
        constructor
        · rw [List.map_cons, map_write_id key c t htail, if_pos hk,
            List.filter_cons]
          dsimp only
          rw [if_pos hk, filter_key_nil key t htail, hkey]
        · have hq : (!(kv.1 == key)) = false := by rw [hk]; rfl
          rw [List.map_cons, map_write_id key c t htail, if_pos hk,
            List.filter_cons, List.filter_cons]
          dsimp only
          rw [hq]
          rfl
      · have hk0 : (kv.1 == key) = false := by simpa using hk
        have hanyt : t.any (fun kv => kv.1 == key) = true := by
          simpa [hk0] using hany
        obtain ⟨ih1, ih2⟩ := write_present_core key c t hndt hanyt
        have hq2 : (!(kv.1 == key)) = true := by rw [hk0]; rfl
        constructor
        · rw [List.map_cons, if_neg (by simp [hk0]), List.filter_cons]
          try dsimp only
          rw [if_neg (by simp [hk0])]
          exact ih1
        · rw [List.map_cons, if_neg (by simp [hk0]), List.filter_cons,
            List.filter_cons]
          try dsimp only
          rw [hq2, if_pos (show (true = true) from rfl),
            if_pos (show (true = true) from rfl)]
          exact congrArg (kv :: ·) ih2

/-- C7: when key k is already present (the buckets carrying pairwise
distinct keys, as Parrot's hash guarantees), a named push of any kind for k
overwrites the existing bucket's cell in place: afterwards exactly one
bucket carries k and it holds the last-written value, every other bucket is
unchanged, and exists_named is true (1) both before and after. -/
theorem C7_named_overwrite (s : Parrot_Signature) (h0 : Hash)
    (hh : s.hash = some h0) (hnd : (h0.map Prod.fst).Nodup) (key : String)
    (hex : Parrot_pcc_signature_exists_named s key = 1) (a : PushArg) :
    Parrot_pcc_signature_exists_named s key = 1 ∧
    ∃ h1, pushNamedArg s key a = some { s with hash := some h1 } ∧
      h1.filter (fun kv => kv.1 == key) = [(key, cellOfArg a)] ∧
      h1.filter (fun kv => !(kv.1 == key))
        = h0.filter (fun kv => !(kv.1 == key)) ∧
      Parrot_pcc_signature_exists_named { s with hash := some h1 } key = 1 := by
  have hany : h0.any (fun kv => kv.1 == key) = true := by
    simp only [Parrot_pcc_signature_exists_named, hh, Parrot_hash_exists] at hex
    by_contra hno
    simp only [Bool.not_eq_true] at hno
    rw [hno] at hex
    simp at hex
  have hw : write_cell_named h0 key (cellOfArg a)
      = h0.map (fun kv => if kv.1 == key then (kv.1, cellOfArg a) else kv) := by
    unfold write_cell_named
    rw [if_pos hany]
  obtain ⟨hf1, hf2⟩ := write_present_core key (cellOfArg a) h0 hnd hany
  refine ⟨hex, write_cell_named h0 key (cellOfArg a),
    pushNamedArg_eq s h0 hh key a, ?_, ?_, ?_⟩
  · rw [hw]; exact hf1
  · rw [hw]; exact hf2
  · have hmem : (key, cellOfArg a) ∈ write_cell_named h0 key (cellOfArg a) := by
      refine List.mem_of_mem_filter (p := fun kv => kv.1 == key) ?_
      rw [hw, hf1]
      exact List.mem_singleton_self _
    simp only [Parrot_pcc_signature_exists_named, Parrot_hash_exists]
    rw [if_pos ?_]
    exact List.any_eq_true.mpr ⟨(key, cellOfArg a), hmem, by simp⟩

/-- Concrete two-key hash for the C7 witness. -/
def c7hash : Hash := [("x", Pcc_cell.intCell 1), ("y", Pcc_cell.intCell 5)]

/-- Concrete Signature holding c7hash, for the C7 witness. -/
def c7sig : Parrot_Signature := { zeroSig with hash := some c7hash }

/-- Witness for C7: overwriting the present key "x" with a new integer. -/
theorem C7_witness :
    c7sig.hash = some c7hash ∧ (c7hash.map Prod.fst).Nodup ∧
    Parrot_pcc_signature_exists_named c7sig "x" = 1 ∧
    (Parrot_pcc_signature_exists_named c7sig "x" = 1 ∧
     ∃ h1, pushNamedArg c7sig "x" (.int 2) = some { c7sig with hash := some h1 } ∧
       h1.filter (fun kv => kv.1 == "x") = [("x", cellOfArg (.int 2))] ∧
       h1.filter (fun kv => !(kv.1 == "x"))
         = c7hash.filter (fun kv => !(kv.1 == "x")) ∧
       Parrot_pcc_signature_exists_named { c7sig with hash := some h1 } "x" = 1) :=
  ⟨rfl, by decide, by decide,
   C7_named_overwrite c7sig c7hash rfl (by decide) "x" (by decide) (.int 2)⟩

/-- mark_cell reports exactly the cell's live reference (none for
Integer/Float cells and null references). -/
lemma mark_cell_eq (c : Pcc_cell) : mark_cell c = (cellRef c).toList := by
  cases c with
  | intCell v => rfl
  | floatCell v => rfl
  | stringCell s => cases s <;> rfl
  | pmcCell p => cases p <;> rfl

/-- A counted loop reading slots through getD equals traversing the taken
list. -/
lemma range_flatMap_getD {α β : Type} (f : α → List β) (d : α) :
    ∀ (l : List α) (n : Nat), n ≤ l.length →
    (List.range n).flatMap (fun i => f (l.getD i d)) = (l.take n).flatMap f
  | _, 0, _ => by simp
  | [], n+1, h => by simp at h
  | x :: xs, n+1, h => by
      rw [List.range_succ_eq_map, List.flatMap_cons, List.flatMap_map]
      simp only [List.getD_cons_zero, Function.comp, List.getD_cons_succ]
      rw [range_flatMap_getD f d xs n (by simpa using h), List.take_succ_cons,
        List.flatMap_cons]

/-- flatMap over option-to-list equals filterMap. -/
lemma flatMap_toList_eq_filterMap {α β : Type} (g : α → Option β) :
    ∀ (l : List α), l.flatMap (fun c => (g c).toList) = l.filterMap g
  | [] => rfl
  | x :: xs => by
      rw [List.flatMap_cons, List.filterMap_cons]
      cases g x with
      | none => simpa using flatMap_toList_eq_filterMap g xs
      | some r => simp [flatMap_toList_eq_filterMap g xs]

/-- The positional marking loop reports exactly the live cells' references,
in slot order. -/
lemma mark_positionals_eq (s : Parrot_Signature) (hwf : sig_wf s) :
    mark_positionals s = (liveCells s).filterMap cellRef := by
  obtain ⟨hlen, hnn, hle, _⟩ := hwf
  unfold mark_positionals liveCells
  calc (List.range s.num_positionals.toNat).flatMap
        (fun i => mark_cell (s.positionals.getD i garbage_cell))
      = (List.range s.num_positionals.toNat).flatMap
        (fun i => (cellRef (s.positionals.getD i garbage_cell)).toList) := by
        simp only [mark_cell_eq]
    _ = (s.positionals.take s.num_positionals.toNat).flatMap
          (fun c => (cellRef c).toList) :=
        range_flatMap_getD (fun c => (cellRef c).toList) garbage_cell
          s.positionals s.num_positionals.toNat (by omega)
    _ = _ := flatMap_toList_eq_filterMap _ _

/-- The hash marking visits each bucket's key and its cell's reference. -/
lemma mark_hash_eq (h : Hash) :
    mark_hash h = h.flatMap (fun kv => GCRef.str kv.1 :: (cellRef kv.2).toList) := by
  unfold mark_hash
  simp only [mark_cell_eq]

/-- C10: the marking operation reports exactly the live Text/Object
references the Signature holds — the positional cells in [0, count) plus,
in named storage, every key and every cell value (first conjunct: the
reported list IS the held-reference list, so there are no omissions and no
duplicates beyond those held, and the count K matches); the multiset of
reports is invariant under the hash's iteration order (second conjunct);
and Integer/Float cells and null references produce no report (last
conjuncts). -/
theorem C10_marking_complete (s : Parrot_Signature) (hwf : sig_wf s) :
    Parrot_pcc_signature_mark s = sigLiveRefs s ∧
    (∀ h₁ h₂ : Hash, s.hash = some h₁ → h₁.Perm h₂ →
      (Parrot_pcc_signature_mark { s with hash := some h₂ }).Perm
        (Parrot_pcc_signature_mark s)) ∧
    ((sigLiveRefs s).Nodup → (Parrot_pcc_signature_mark s).Nodup) ∧
    (Parrot_pcc_signature_mark s).length = (sigLiveRefs s).length ∧
    (∀ v : Int, mark_cell (.intCell v) = []) ∧
    (∀ q : ℚ, mark_cell (.floatCell q) = []) ∧
    mark_cell (.stringCell STRINGNULL) = [] ∧
    mark_cell (.pmcCell PMCNULL) = [] := by
  have hmain : Parrot_pcc_signature_mark s = sigLiveRefs s := by
    unfold Parrot_pcc_signature_mark sigLiveRefs
    rw [mark_positionals_eq s hwf]
    cases hh : s.hash with
    | none => rfl
    | some h =>
        dsimp only
        rw [mark_hash_eq]
        try rfl
  refine ⟨hmain, ?_, ?_, by rw [hmain], fun v => rfl, fun q => rfl, rfl, rfl⟩
  · intro h₁ h₂ hh hperm
    have e1 : Parrot_pcc_signature_mark { s with hash := some h₂ }
        = mark_positionals s ++ mark_hash h₂ := rfl
    have e2 : Parrot_pcc_signature_mark s = mark_positionals s ++ mark_hash h₁ := by
      unfold Parrot_pcc_signature_mark
      rw [hh]
    rw [e1, e2]
    exact List.Perm.append_left (mark_positionals s)
      (List.Perm.flatMap_right _ hperm.symm)
  · intro hnd
    rw [hmain]
    exact hnd

/-- Concrete Signature for the C10 witness: three positional cells (one
text, one integer, one object) and a two-bucket hash (one live text value,
one null text value). -/
def c10sig : Parrot_Signature :=
  { zeroSig with
      num_positionals := 3
      allocated_positionals := 3
      positionals := [Pcc_cell.stringCell (some "a"), Pcc_cell.intCell 5,
        Pcc_cell.pmcCell livePmc]
      positionals_null := false
      hash := some [("k", Pcc_cell.stringCell (some "v")),
        ("l", Pcc_cell.stringCell STRINGNULL)] }

/-- Witness for C10 at a concrete populated Signature. -/
theorem C10_witness :
    sig_wf c10sig ∧
    (Parrot_pcc_signature_mark c10sig = sigLiveRefs c10sig ∧
     (∀ h₁ h₂ : Hash, c10sig.hash = some h₁ → h₁.Perm h₂ →
       (Parrot_pcc_signature_mark { c10sig with hash := some h₂ }).Perm
         (Parrot_pcc_signature_mark c10sig)) ∧
     ((sigLiveRefs c10sig).Nodup → (Parrot_pcc_signature_mark c10sig).Nodup) ∧
     (Parrot_pcc_signature_mark c10sig).length = (sigLiveRefs c10sig).length ∧
     (∀ v : Int, mark_cell (.intCell v) = []) ∧
     (∀ q : ℚ, mark_cell (.floatCell q) = []) ∧
     mark_cell (.stringCell STRINGNULL) = [] ∧
     mark_cell (.pmcCell PMCNULL) = []) :=
  ⟨by decide, C10_marking_complete c10sig (by decide)⟩
